import Mathlib

/-!
A shallow embedding of `src/amazon_reviews_processor.py` (an Amazon-review
ingestion pipeline: three parsers producing dict records, a pandas-based
combiner that deduplicates and rewrites categories, and an exporter), with
theorems settling the specification claims about it.

Modelling conventions:
* Python strings are `List Char` (`Str`); dict keys are Lean `String`.
* Python runtime values flowing through records are `PyVal`.  The model
  restricts list values to flat lists of scalars (the fields the program
  reads -- `helpful`, `image` -- have this shape) and JSON numbers to
  integers (the numeric fields read -- `unixReviewTime`, `helpful` counts,
  integral ratings -- are integers; no claim depends on non-integral
  floats).  `pFloat n` is the Python float with integral value `n`.
* Naive `datetime.timestamp()` is interpreted as UTC.
* Fallible Python code (uncaught `TypeError` / `KeyError` / `ValueError` /
  `AttributeError` / `IndexError`) is modelled with `Except String`;
  `.error` means the run aborts at that point with nothing written.
* Files are pre-decoded: a JSON-lines file is a `List (Option Dict)`
  where `none` stands for a line whose `json.loads` raises
  `JSONDecodeError` (the code skips it), and `some d` for a line that
  decodes to the JSON object `d`.
-/

abbrev Str := List Char

inductive PyScalar where
  | sStr (s : Str)
  | sInt (n : Int)
  | sFloat (n : Int)
  | sBool (b : Bool)
  | sNone
  deriving DecidableEq, Repr

inductive PyVal where
  | pStr (s : Str)
  | pInt (n : Int)
  | pFloat (n : Int)
  | pBool (b : Bool)
  | pList (l : List PyScalar)
  | pNone
  | pDate (ms : Int)
  | pNaT
  deriving DecidableEq, Repr

open PyVal

/-- A Python dict, as the association list of its items. -/
abbrev Dict := List (String × PyVal)

/-- `d.get(k, default)` on a Python dict. -/
def dictGetD (d : Dict) (k : String) (default : PyVal) : PyVal :=
  match d.find? (fun kv => kv.1 = k) with
  | some kv => kv.2
  | none => default

/-- `k in d` / `d[k]` presence, as the optional value. -/
def dictLookup (d : Dict) (k : String) : Option PyVal :=
  (d.find? (fun kv => kv.1 = k)).map (fun kv => kv.2)

/-- `d[k] = v` on a Python dict: overwrite in place, else append. -/
def dictSet (d : Dict) (k : String) (v : PyVal) : Dict :=
  match d with
  | [] => [(k, v)]
  | kv :: t => if kv.1 = k then (k, v) :: t else kv :: dictSet t k v

/-- Removing key `k` (`df.drop(k, axis=1)` at row level). -/
def dictDrop (d : Dict) (k : String) : Dict :=
  d.filter (fun kv => kv.1 ≠ k)

/-- The convenience coercion from a Lean string literal to `Str`. -/
def strL (s : String) : Str := s.data

/-- Python `\s` (ASCII portion). -/
def pyIsSpace (c : Char) : Bool :=
  c = ' ' || c = '\t' || c = '\n' || c = '\r' || c = Char.ofNat 11 || c = Char.ofNat 12

/-- Python `\d` (ASCII). -/
def pyIsDigit (c : Char) : Bool := '0' ≤ c && c ≤ '9'

/-- Python `\w` (ASCII portion). -/
def pyIsWord (c : Char) : Bool := c.isAlpha || pyIsDigit c || c = '_'

def digitVal (c : Char) : Nat := c.toNat - 48

/-- Numeric value of a digit string (`int("007") = 7`). -/
def digitsVal (s : Str) : Nat := s.foldl (fun a c => a * 10 + digitVal c) 0

/-- Boolean substring test, Python `pat in s`. -/
def containsSub (s pat : Str) : Bool :=
  if pat.isPrefixOf s then true
  else
    match s with
    | [] => false
    | _ :: t => containsSub t pat

/-- Python `s.replace(pat, rep)` for a non-empty `pat`: replace every
non-overlapping occurrence, scanning left to right.  (For an empty `pat`
the Python semantics differs, but the program only replaces "Books".)
Structural on a fuel initialised to `s.length`; every step consumes at
least one character of `s`, so the fuel never runs out. -/
def pyReplaceF : Nat → Str → Str → Str → Str
  | 0, s, _, _ => s
  | _ + 1, s, [], _ => s
  | fuel + 1, s, p :: ps, rep =>
    match s with
    | [] => []
    | c :: rest =>
      if (p :: ps).isPrefixOf (c :: rest) then
        rep ++ pyReplaceF fuel (rest.drop ps.length) (p :: ps) rep
      else c :: pyReplaceF fuel rest (p :: ps) rep

def pyReplace (s pat rep : Str) : Str := pyReplaceF s.length s pat rep

/-- Python `s.strip()`: drop leading and trailing whitespace. -/
def pyStrip (s : Str) : Str :=
  ((s.dropWhile pyIsSpace).reverse.dropWhile pyIsSpace).reverse

/-- Python `s.lower()` (ASCII). -/
def pyLower (s : Str) : Str :=
  s.map (fun c => if 'A' ≤ c && c ≤ 'Z' then Char.ofNat (c.toNat + 32) else c)

/-- Python `s * n` string repetition. -/
def pyStrRepeat (s : Str) (n : Int) : Str :=
  (List.replicate n.toNat s).flatten

def pyListRepeat (l : List PyScalar) (n : Int) : List PyScalar :=
  (List.replicate n.toNat l).flatten

def intToStr (n : Int) : Str := (toString n).data

/-- Python `repr` of a scalar, as used when a list is stringified. -/
def pyReprScalar (v : PyScalar) : Str :=
  match v with
  | .sStr s => '\'' :: (s ++ ['\''])
  | .sInt n => intToStr n
  | .sFloat n => intToStr n ++ strL ".0"
  | .sBool b => if b then strL "True" else strL "False"
  | .sNone => strL "None"

def pyReprList (l : List PyScalar) : Str :=
  '[' :: ((l.map pyReprScalar).intersperse (strL ", ")).flatten ++ [']']

/-- Python `str(v)`.  (`pDate` stringification is schematic; the program
never stringifies dates.) -/
def pyStrOf (v : PyVal) : Str :=
  match v with
  | pStr s => s
  | pInt n => intToStr n
  | pFloat n => intToStr n ++ strL ".0"
  | pBool b => if b then strL "True" else strL "False"
  | pList l => pyReprList l
  | pNone => strL "None"
  | pDate ms => intToStr ms
  | pNaT => strL "NaT"

/-- Python truthiness of a value. -/
def pyTruthy (v : PyVal) : Bool :=
  match v with
  | pStr s => s ≠ []
  | pInt n => n ≠ 0
  | pFloat n => n ≠ 0
  | pBool b => b
  | pList l => l ≠ []
  | pNone => false
  | pDate _ => true
  | pNaT => true

/-- Python `v * n` for an integer `n` (`unixReviewTime * 1000` in the
code can meet any JSON value). -/
def pyMulInt (v : PyVal) (n : Int) : Except String PyVal :=
  match v with
  | pInt k => .ok (pInt (k * n))
  | pFloat k => .ok (pFloat (k * n))
  | pBool b => .ok (pInt ((if b then 1 else 0) * n))
  | pStr s => .ok (pStr (pyStrRepeat s n))
  | pList l => .ok (pList (pyListRepeat l n))
  | _ => .error "TypeError: unsupported operand for *"

/-- Python `v[0]` (`helpful[0]` in the code). -/
def pyIndex0 (v : PyVal) : Except String PyVal :=
  match v with
  | pList [] => .error "IndexError: list index out of range"
  | pList (x :: _) =>
    .ok (match x with
      | .sStr s => pStr s
      | .sInt n => pInt n
      | .sFloat n => pFloat n
      | .sBool b => pBool b
      | .sNone => pNone)
  | pStr [] => .error "IndexError: string index out of range"
  | pStr (c :: _) => .ok (pStr [c])
  | _ => .error "TypeError: not subscriptable"

/-- Python `float(v)` (`float(review.get('overall', 0))` in the code;
string parsing is restricted to digit strings, enough for the model). -/
def pyFloat (v : PyVal) : Except String PyVal :=
  match v with
  | pInt n => .ok (pFloat n)
  | pFloat n => .ok (pFloat n)
  | pBool b => .ok (pFloat (if b then 1 else 0))
  | pStr s => if s ≠ [] && s.all pyIsDigit then .ok (pFloat (digitsVal s)) else .error "ValueError: could not convert string to float"
  | _ => .error "TypeError: float() argument"

/-! ## Calendar arithmetic

`datetime.strptime(...).timestamp() * 1000` with the naive datetime taken
as UTC: days-from-civil followed by scaling to milliseconds. -/

def isLeap (y : Int) : Bool := (y % 4 = 0 && y % 100 ≠ 0) || y % 400 = 0

def daysInMonth (y m : Int) : Int :=
  if m = 2 then (if isLeap y then 29 else 28)
  else if m = 4 || m = 6 || m = 9 || m = 11 then 30
  else 31

/-- Days from civil date to 1970-01-01 (Gregorian), valid because `Int`
division in Lean is floor division. -/
def daysFromCivil (y m d : Int) : Int :=
  let y' := if m ≤ 2 then y - 1 else y
  let era := y' / 400
  let yoe := y' - era * 400
  let doy := (153 * (m + (if m > 2 then -3 else 9)) + 2) / 5 + d - 1
  let doe := yoe * 365 + yoe / 4 - yoe / 100 + doy
  era * 146097 + doe - 719468

/-- `int(datetime(y, m, d).timestamp() * 1000)` under the UTC convention. -/
def epochMs (ymd : Int × Int × Int) : Int :=
  daysFromCivil ymd.1 ymd.2.1 ymd.2.2 * 86400000

/-- `datetime(year, month, day)` constructor validation: the regex already
forces month 1-12 and day 1-31, the constructor additionally rejects year
0 (MINYEAR is 1) and days beyond the month length. -/
def validDate (y m d : Int) : Bool := 1 ≤ y && 1 ≤ d && d ≤ daysInMonth y m

/-! ## `datetime.strptime`

CPython's `_strptime` compiles the format into a regex: `%m` becomes
`1[0-2]|0[1-9]|[1-9]`, `%d` becomes `3[01]|[12]\d|0[1-9]|[1-9]`, `%Y`
becomes `\d\d\d\d`, literal whitespace in the format becomes `\s+`, and
the whole input must be consumed.  The matchers below follow those
alternations in order. -/

/-- The `%m` directive: `1[0-2]|0[1-9]|[1-9]`. -/
def matchMonth : Str → Option (Nat × Str)
  | '1' :: c :: rest =>
    if '0' ≤ c && c ≤ '2' then some (10 + digitVal c, rest) else some (1, c :: rest)
  | '0' :: c :: rest =>
    if '1' ≤ c && c ≤ '9' then some (digitVal c, rest) else none
  | c :: rest =>
    if '1' ≤ c && c ≤ '9' then some (digitVal c, rest) else none
  | [] => none

/-- The `%d` directive: `3[01]|[12]\d|0[1-9]|[1-9]`. -/
def matchDay : Str → Option (Nat × Str)
  | '3' :: c :: rest =>
    if c = '0' || c = '1' then some (30 + digitVal c, rest) else some (3, c :: rest)
  | '1' :: c :: rest =>
    if pyIsDigit c then some (10 + digitVal c, rest) else some (1, c :: rest)
  | '2' :: c :: rest =>
    if pyIsDigit c then some (20 + digitVal c, rest) else some (2, c :: rest)
  | '0' :: c :: rest =>
    if '1' ≤ c && c ≤ '9' then some (digitVal c, rest) else none
  | c :: rest =>
    if '1' ≤ c && c ≤ '9' then some (digitVal c, rest) else none
  | [] => none

/-- The `%Y` directive: exactly four digits. -/
def matchYear4 : Str → Option (Nat × Str)
  | a :: b :: c :: d :: rest =>
    if pyIsDigit a && pyIsDigit b && pyIsDigit c && pyIsDigit d then
      some (digitsVal [a, b, c, d], rest)
    else none
  | _ => none

/-- `\s+`: at least one whitespace character, consumed greedily. -/
def skipSpaces1 (s : Str) : Option Str :=
  match s with
  | c :: rest => if pyIsSpace c then some (rest.dropWhile pyIsSpace) else none
  | [] => none

/-- `datetime.strptime(s, '%m %d, %Y')`, returning the (y, m, d) triple,
or `none` for a `ValueError`. -/
def strptimeMDY (s : Str) : Option (Int × Int × Int) := do
  let (m, s1) ← matchMonth s
  let s2 ← skipSpaces1 s1
  let (d, s3) ← matchDay s2
  match s3 with
  | ',' :: s4 => do
    let s5 ← skipSpaces1 s4
    let (y, s6) ← matchYear4 s5
    if s6 = [] && validDate y m d then some (y, m, d) else none
  | _ => none

/-- `datetime.strptime(s, '%Y-%m-%d')`, returning (y, m, d) or `none`. -/
def strptimeYmd (s : Str) : Option (Int × Int × Int) := do
  let (y, s1) ← matchYear4 s
  match s1 with
  | '-' :: s2 => do
    let (m, s3) ← matchMonth s2
    match s3 with
    | '-' :: s4 => do
      let (d, s5) ← matchDay s4
      if s5 = [] && validDate y m d then some (y, m, d) else none
    | _ => none
  | _ => none

/-! ## Text-dump parser regex machinery (`parse_amazon_meta_txt`) -/

/-- Literal token match: consume `pat` as a prefix. -/
def litTok (pat : Str) (s : Str) : Option Str :=
  if pat.isPrefixOf s then some (s.drop pat.length) else none

/-- Greedy `p+` with at least one character: the captured run and the
rest. -/
def takeWhile1 (p : Char → Bool) (s : Str) : Option (Str × Str) :=
  let t := s.takeWhile p
  if t = [] then none else some (t, s.drop t.length)

/-- `re.search(r'ASIN:\s+(\w+)', block)`: the first position where
`ASIN:` is followed by whitespace and a word, returning the captured
word.  (`\s+` and `\w+` begin on disjoint character classes, so greedy
matching needs no backtracking here.) -/
def searchASIN : Str → Option Str
  | [] => none
  | c :: rest =>
    match (do
      let s1 ← litTok (strL "ASIN:") (c :: rest)
      let s2 ← skipSpaces1 s1
      let (w, _) ← takeWhile1 pyIsWord s2
      some w : Option Str) with
    | some w => some w
    | none => searchASIN rest

/-- `re.findall(r'\|([^|]+)', block)`: every maximal nonempty run of
non-`|` characters that follows a `|`.  Structural on a fuel
initialised to the string length (every step consumes at least one
character). -/
def findallCatsF : Nat → Str → List Str
  | 0, _ => []
  | _ + 1, [] => []
  | fuel + 1, '|' :: rest =>
    let cap := rest.takeWhile (fun c => c ≠ '|')
    if cap = [] then findallCatsF fuel rest
    else cap :: findallCatsF fuel (rest.drop cap.length)
  | fuel + 1, _ :: rest => findallCatsF fuel rest

def findallCats (s : Str) : List Str := findallCatsF s.length s

/-- `cat.split('[')[0].strip()` applied to one captured category. -/
def catClean (cat : Str) : Str := pyStrip (cat.takeWhile (fun c => c ≠ '['))

/-- One review tuple captured by the review regex: the date string and
the customer / rating / votes / helpful captures. -/
structure ReviewTup where
  dateStr : Str
  user : Str
  rating : Str
  votes : Str
  helpful : Str
  deriving DecidableEq, Repr

/-- `\d{1,2}` candidates in greedy preference order (two digits, then
one), for the backtracking points of the review regex. -/
def d12cands : Str → List (Str × Str)
  | a :: b :: rest =>
    if pyIsDigit a && pyIsDigit b then [([a, b], rest), ([a], b :: rest)]
    else if pyIsDigit a then [([a], b :: rest)]
    else []
  | [a] => if pyIsDigit a then [([a], [])] else []
  | [] => []

/-- Try a continuation over candidate splits, taking the first success
(regex alternation / backtracking order). -/
def tryCands (k : Str → Str → Option α) : List (Str × Str) → Option α
  | [] => none
  | (cap, rest) :: more =>
    match k cap rest with
    | some v => some v
    | none => tryCands k more

/-- The repeated shape `\s+ token \s+ (capture+)` of the review regex. -/
def tokCap (tok : Str) (p : Char → Bool) (r : Str) : Option (Str × Str) := do
  let r1 ← skipSpaces1 r
  let r2 ← litTok tok r1
  let r3 ← skipSpaces1 r2
  takeWhile1 p r3

def revAfterDate (yStr mo dy : Str) (r5 : Str) : Option (ReviewTup × Str) := do
  let (user, r9) ← tokCap (strL "cutomer:") pyIsWord r5
  let (rat, r13) ← tokCap (strL "rating:") pyIsDigit r9
  let (vot, r17) ← tokCap (strL "votes:") pyIsDigit r13
  let (hel, r21) ← tokCap (strL "helpful:") pyIsDigit r17
  some (⟨yStr ++ '-' :: mo ++ '-' :: dy, user, rat, vot, hel⟩, r21)

def revAfterMonth (yStr mo : Str) (r3 : Str) : Option (ReviewTup × Str) :=
  match r3 with
  | '-' :: r4 => tryCands (revAfterDate yStr mo) (d12cands r4)
  | _ => none

/-- Attempt the review regex
`(\d{4}-\d{1,2}-\d{1,2})\s+cutomer:\s+(\w+)\s+rating:\s+(\d+)\s+votes:\s+(\d+)\s+helpful:\s+(\d+)`
anchored at the start of `s`; all other greedy pieces are followed by
disjoint character classes, so only the `\d{1,2}` positions backtrack. -/
def tryMatchReview (s : Str) : Option (ReviewTup × Str) :=
  match matchYear4 s with
  | none => none
  | some (_, r1) =>
    match r1 with
    | '-' :: r2 => tryCands (revAfterMonth (s.take 4)) (d12cands r2)
    | _ => none

/-- `re.findall` of the review regex: scan every start position, emit
non-overlapping matches, resume after each match.  Fuel is the string
length; a successful match always consumes at least one character, so
the fuel never runs out on the semantic path. -/
def findallReviews (s : Str) : List ReviewTup :=
  go s.length s
where
  go : Nat → Str → List ReviewTup
  | 0, _ => []
  | _ + 1, [] => []
  | n + 1, c :: rest =>
    match tryMatchReview (c :: rest) with
    | some (t, rem) => t :: go n rem
    | none => go n rest

/-- One match attempt of `re.split`'s pattern `Id:\s+\d+`, anchored at
the start of `s`: the rest after the match. -/
def matchIdAt (s : Str) : Option Str := do
  let s1 ← litTok (strL "Id:") s
  let s2 ← skipSpaces1 s1
  let (_, s3) ← takeWhile1 pyIsDigit s2
  some s3

/-- `re.split(r'Id:\s+\d+', content)`: the segments between matches
(including the segment before the first match). -/
def reSplitId (s : Str) : List Str :=
  go s.length [] s
where
  go : Nat → Str → Str → List Str
  | 0, acc, rest => [acc.reverse ++ rest]
  | _ + 1, acc, [] => [acc.reverse]
  | n + 1, acc, c :: rest =>
    match matchIdAt (c :: rest) with
    | some rem => acc.reverse :: go n [] rem
    | none => go n (c :: acc) rest

/-! ## The sample cap

Python's `if max_samples and sample_count >= max_samples: return ...`:
`None` and `0` are falsy, so a cap of `0` disables capping.  The Driver
passes `args.samples // 3` when `args.samples > 0` (a non-negative int),
else `None`, so `Option Nat` models the cap faithfully. -/

def capHit (cap : Option Nat) (n : Nat) : Bool :=
  match cap with
  | none => false
  | some c => decide (c ≠ 0 ∧ c ≤ n)

/-- `max_samples = args.samples // 3 if args.samples > 0 else None` in
`main` (Python `//` is floor division, as is Lean `Int` division). -/
def mainPerParserCap (samples : Int) : Option Nat :=
  if samples > 0 then some ((samples / 3).toNat) else none

/-- The eleven keys of the record dict literal, shared by all three
parsers (source lines 38-50, 74-86, 108-120). -/
def fieldNames : List String :=
  ["rating", "title", "text", "images", "asin", "parent_asin", "user_id",
   "timestamp", "helpful_vote", "verified_purchase", "category"]

/-! ## `parse_amazon_meta_txt` -/

/-- The record appended for one review tuple of a block.  The block's
parsed `title:` line is dead with respect to the output: the emitted
record's `title` is the literal `""` (source line 40). -/
def txtRecord (asin mainCat : Str) (t : ReviewTup) : Dict :=
  let ts : Int :=
    match strptimeYmd t.dateStr with
    | some ymd => epochMs ymd
    | none => 0
  [("rating", pFloat (digitsVal t.rating : Nat)),
   ("title", pStr []),
   ("text", pStr []),
   ("images", pList []),
   ("asin", pStr asin),
   ("parent_asin", pStr asin),
   ("user_id", pStr t.user),
   ("timestamp", pInt ts),
   ("helpful_vote", pInt (digitsVal t.helpful : Nat)),
   ("verified_purchase", pBool false),
   ("category", pStr mainCat)]

/-- `categories[0] if categories else "Unknown"` with
`categories = [cat.split('[')[0].strip() for cat in category_matches]`. -/
def mainCategoryOf (block : Str) : Str :=
  match (findallCats block).map catClean with
  | [] => strL "Unknown"
  | c :: _ => c

/-- The inner `for review in review_blocks` loop: the emitted records,
the updated `sample_count`, and whether the cap fired (which in the
source returns from the whole function). -/
def pmtReviews (asin mainCat : Str) (cap : Option Nat) :
    List ReviewTup → Nat → List Dict × Nat × Bool
  | [], count => ([], count, false)
  | t :: rest, count =>
    let d := txtRecord asin mainCat t
    let count' := count + 1
    if capHit cap count' then ([d], count', true)
    else
      let (l, c2, st) := pmtReviews asin mainCat cap rest count'
      (d :: l, c2, st)

/-- The outer `for block in product_blocks` loop. -/
def pmtBlocks (cap : Option Nat) : List Str → Nat → List Dict
  | [], _ => []
  | b :: rest, count =>
    match searchASIN b with
    | none => pmtBlocks cap rest count
    | some asin =>
      let (recs, count', stopped) :=
        pmtReviews asin (mainCategoryOf b) cap (findallReviews b) count
      if stopped then recs else recs ++ pmtBlocks cap rest count'

/-- `parse_amazon_meta_txt(file_path, max_samples)`, over the already
read file content. -/
def parse_amazon_meta_txt (content : Str) (max_samples : Option Nat) : List Dict :=
  pmtBlocks max_samples ((reSplitId content).drop 1) 0

/-! ## `parse_json_reviews` -/

/-- `review.get('unixReviewTime', 0) * 1000 if review.get('unixReviewTime') else 0`. -/
def jsonTsFallback (review : Dict) : Except String PyVal :=
  if pyTruthy (dictGetD review "unixReviewTime" pNone) then
    pyMulInt (dictGetD review "unixReviewTime" (pInt 0)) 1000
  else .ok (pInt 0)

/-- Source lines 66-70: parse `reviewTime` (defaulting to the string
`'01 1, 1970'` when the key is absent); on `ValueError` fall back to
`unixReviewTime`.  A non-string value raises an uncaught `TypeError`. -/
def jsonTimestamp (review : Dict) : Except String PyVal :=
  match dictGetD review "reviewTime" (pStr (strL "01 1, 1970")) with
  | pStr s =>
    match strptimeMDY s with
    | some ymd => .ok (pInt (epochMs ymd))
    | none => jsonTsFallback review
  | _ => .error "TypeError: strptime() argument 1 must be str"

/-- The record built from one decoded review line (source lines 66-86),
in the evaluation order of the source: timestamp, then `helpful[0]`,
then `float(overall)` inside the dict literal. -/
def processJsonLine (review : Dict) : Except String Dict := do
  let ts ← jsonTimestamp review
  let hv ← pyIndex0 (dictGetD review "helpful" (pList [.sInt 0, .sInt 0]))
  let rat ← pyFloat (dictGetD review "overall" (pInt 0))
  .ok [("rating", rat),
       ("title", dictGetD review "summary" (pStr [])),
       ("text", dictGetD review "reviewText" (pStr [])),
       ("images", pList []),
       ("asin", dictGetD review "asin" (pStr [])),
       ("parent_asin", dictGetD review "asin" (pStr [])),
       ("user_id", dictGetD review "reviewerID" (pStr [])),
       ("timestamp", ts),
       ("helpful_vote", hv),
       ("verified_purchase", pBool false),
       ("category", pStr (strL "Amazon Instant Video"))]

/-- The `for line in f` loop of `parse_json_reviews`: `none` lines are
the ones whose `json.loads` raises `JSONDecodeError` (skipped). -/
def pjrGo (cap : Option Nat) : List (Option Dict) → Nat → Except String (List Dict)
  | [], _ => .ok []
  | none :: rest, count => pjrGo cap rest count
  | some r :: rest, count => do
    let d ← processJsonLine r
    let count' := count + 1
    if capHit cap count' then .ok [d]
    else do
      let l ← pjrGo cap rest count'
      .ok (d :: l)

def parse_json_reviews (lines : List (Option Dict)) (max_samples : Option Nat) :
    Except String (List Dict) :=
  pjrGo max_samples lines 0

/-! ## `parse_meta_instant_video_json` -/

/-- The record built from one decoded metadata line (source lines
104-120). -/
def processMetaLine (meta : Dict) : Dict :=
  let asin := dictGetD meta "asin" (pStr [])
  let category := dictGetD meta "category" (pStr (strL "Amazon Instant Video"))
  let parent_asin := dictGetD meta "parent_asin" asin
  [("rating", pNone),
   ("title", pStr []),
   ("text", pStr []),
   ("images", dictGetD meta "image" (pList [])),
   ("asin", asin),
   ("parent_asin", parent_asin),
   ("user_id", pStr []),
   ("timestamp", pInt 0),
   ("helpful_vote", pInt 0),
   ("verified_purchase", pBool false),
   ("category", category)]

def pmvGo (cap : Option Nat) : List (Option Dict) → Nat → List Dict
  | [], _ => []
  | none :: rest, count => pmvGo cap rest count
  | some m :: rest, count =>
    let d := processMetaLine m
    let count' := count + 1
    if capHit cap count' then [d]
    else d :: pmvGo cap rest count'

def parse_meta_instant_video_json (lines : List (Option Dict)) (max_samples : Option Nat) :
    List Dict :=
  pmvGo max_samples lines 0

/-! ## `combine_review_data` -/

/-- Python slice `l[:n]` (negative `n` counts from the end). -/
def pySliceTo (l : List Dict) (n : Int) : List Dict :=
  if 0 ≤ n then l.take n.toNat else l.take ((l.length + n).toNat)

/-- `if max_total_samples and len(all_reviews) > max_total_samples:
all_reviews = all_reviews[:max_total_samples]` -- `None` and `0` are
falsy. -/
def pyCapSlice (l : List Dict) (cap : Option Int) : List Dict :=
  match cap with
  | none => l
  | some n => if n ≠ 0 ∧ (l.length : Int) > n then pySliceTo l n else l

/-- The columns of `pd.DataFrame(rows)`: union of the rows' keys in
first-seen order. -/
def dfColumns (rows : List Dict) : List String :=
  rows.foldl (fun acc r => r.foldl (fun a kv => if kv.1 ∈ a then a else a ++ [kv.1]) acc) []

/-- `.fillna('')` followed by use as the left/right operand of string
concatenation: missing values (`NaN`/`None`) become `''`; a remaining
non-string raises `TypeError` when concatenated. -/
def fillnaStr (v : PyVal) : Except String Str :=
  match v with
  | pStr s => .ok s
  | pNone => .ok []
  | _ => .error "TypeError: can only concatenate str"

/-- The per-row value of
`df['user_id'].fillna('') + '_' + df['asin'].fillna('') + '_' + df['timestamp'].astype(str)`. -/
def rowKeyV (u a t : PyVal) : Except String Str := do
  let su ← fillnaStr u
  let sa ← fillnaStr a
  .ok (su ++ '_' :: sa ++ '_' :: pyStrOf t)

/-- The (user_id, asin, timestamp) triple of a record; a key missing
from the row reads as `NaN` (here `pNone`) when the column exists. -/
def tripleOf (r : Dict) : PyVal × PyVal × PyVal :=
  (dictGetD r "user_id" pNone, dictGetD r "asin" pNone, dictGetD r "timestamp" pNone)

/-- The dedup key (`review_id`) of one row. -/
def rowKey (r : Dict) : Except String Str :=
  rowKeyV (tripleOf r).1 (tripleOf r).2.1 (tripleOf r).2.2

/-- `df.drop_duplicates(subset=['review_id'], keep='first')` over rows
paired with their key: keep the first occurrence of each key, in order. -/
def ddGo (seen : List Str) : List (Str × Dict) → List (Str × Dict)
  | [] => []
  | (k, r) :: rest =>
    if k ∈ seen then ddGo seen rest else (k, r) :: ddGo (k :: seen) rest

def pdDropDuplicatesFirst (pairs : List (Str × Dict)) : List (Str × Dict) :=
  ddGo [] pairs

/-- `pd.to_datetime(v, unit='ms', errors='coerce')` per value: numeric
values become dates, everything else is coerced to `NaT` (the model
coerces non-numeric values without attempting pandas string parsing;
the pipeline's timestamp values are integers). -/
def pdToDatetimeMs (v : PyVal) : PyVal :=
  match v with
  | pInt n => pDate n
  | pFloat n => pDate n
  | _ => pNaT

/-- Source line 143:
`lambda x: x.replace("Books", "Books & Literature") if 'Book' in str(x) else x`.
A non-string whose `str()` contains `'Book'` raises `AttributeError`. -/
def catLambda1 (v : PyVal) : Except String PyVal :=
  if containsSub (pyStrOf v) (strL "Book") then
    match v with
    | pStr s => .ok (pStr (pyReplace s (strL "Books") (strL "Books & Literature")))
    | _ => .error "AttributeError: object has no attribute replace"
  else .ok v

/-- Source line 144:
`lambda x: "Video & Entertainment" if x == "Amazon Instant Video" else x`
(Python `==` between a non-string and a string is `False`). -/
def catLambda2 (v : PyVal) : PyVal :=
  if v = pStr (strL "Amazon Instant Video") then pStr (strL "Video & Entertainment")
  else v

/-- Both category-rewrite `apply`s, in source order: the substring rule
of line 143 first, then the exact-match rule of line 144. -/
def applyCategoryRules (v : PyVal) : Except String PyVal := do
  let v1 ← catLambda1 v
  .ok (catLambda2 v1)

/-- `mapM` over `Except`, written out so that its equations are easy to
reason about. -/
def eMapM (f : α → Except String β) : List α → Except String (List β)
  | [] => .ok []
  | a :: t => do
    let b ← f a
    let r ← eMapM f t
    .ok (b :: r)

/-- `combine_review_data(*datasets, max_total_samples=...)`.  Column
accesses on the dataframe raise `KeyError` when the column does not
exist (in particular on the empty frame, which has no columns); they
are checked in the evaluation order of source line 139.  Assigning and
finally dropping the transient `review_id` column nets out to removing
any pre-existing `review_id` key, which is how it is modelled. -/
def combine_review_data (datasets : List (List Dict)) (max_total_samples : Option Int) :
    Except String (List Dict) :=
  let all_reviews := datasets.flatten
  let all_reviews := pyCapSlice all_reviews max_total_samples
  let cols := dfColumns all_reviews
  if "user_id" ∈ cols then
    if "asin" ∈ cols then
      if "timestamp" ∈ cols then do
        let keys ← eMapM rowKey all_reviews
        let dd := pdDropDuplicatesFirst (keys.zip all_reviews)
        let dd2 := dd.map (fun p =>
          dictSet p.2 "review_date" (pdToDatetimeMs (dictGetD p.2 "timestamp" pNone)))
        if "category" ∈ cols then do
          let rows ← eMapM (fun r => do
            let c ← applyCategoryRules (dictGetD r "category" pNone)
            .ok (dictSet r "category" c)) dd2
          .ok (rows.map (fun r => dictDrop r "review_id"))
        else .error "KeyError: category"
      else .error "KeyError: timestamp"
    else .error "KeyError: asin"
  else .error "KeyError: user_id"

/-! ## `save_combined_data` -/

/-- The one write effect a successful export performs. -/
inductive SaveAction where
  | toCsv (path : Str) (df : List Dict)
  | toJson (path : Str) (df : List Dict)
  | toExcel (path : Str) (df : List Dict)
  deriving DecidableEq

def unsupportedMsg (format : Str) : String :=
  "Unsupported output format: " ++ String.mk format

/-- `save_combined_data(df, output_path, format)`: an `.ok` value is
the single file write; `.error` aborts before anything is written. -/
def save_combined_data (df : List Dict) (output_path : Str) (format : Str) :
    Except String SaveAction :=
  if pyLower format = strL "csv" then .ok (.toCsv output_path df)
  else if pyLower format = strL "json" then .ok (.toJson output_path df)
  else if pyLower format = strL "excel" then .ok (.toExcel output_path df)
  else .error (unsupportedMsg format)

/-! ## Claim theorems -/

/-- Helper: truncation of an empty row list is empty. -/
theorem pyCapSlice_nil (cap : Option Int) : pyCapSlice [] cap = [] := by
  cases cap with
  | none => rfl
  | some n =>
    simp only [pyCapSlice, pySliceTo]
    split <;> simp

/-- C3.  The claim states that a category "Books|Fiction" is NOT
rewritten to "Books & Literature|Fiction".  It is: `str.replace`
substitutes every occurrence of the substring "Books", so the code maps
"Books|Fiction" to exactly that string.  This closed computation proves
the claim false. -/
theorem c3_counterexample :
    applyCategoryRules (pStr (strL "Books|Fiction")) =
      .ok (pStr (strL "Books & Literature|Fiction")) := by rfl

/-- C3 (amended).  The Combiner's category rewrite maps "Books" to
"Books & Literature"; a category "Books|Fiction" IS rewritten to
"Books & Literature|Fiction" (every occurrence of the substring "Books"
is replaced in place); a category exactly "Amazon Instant Video"
becomes "Video & Entertainment". -/
theorem c3_amended_rewrites :
    applyCategoryRules (pStr (strL "Books")) = .ok (pStr (strL "Books & Literature"))
    ∧ applyCategoryRules (pStr (strL "Books|Fiction")) =
        .ok (pStr (strL "Books & Literature|Fiction"))
    ∧ applyCategoryRules (pStr (strL "Amazon Instant Video")) =
        .ok (pStr (strL "Video & Entertainment")) :=
  ⟨rfl, rfl, rfl⟩

/-- A full record with user_id "a_b", asin "c", timestamp 0. -/
def crec1 : Dict :=
  [("rating", pFloat 5), ("title", pStr []), ("text", pStr []),
   ("images", pList []), ("asin", pStr (strL "c")), ("parent_asin", pStr (strL "c")),
   ("user_id", pStr (strL "a_b")), ("timestamp", pInt 0), ("helpful_vote", pInt 0),
   ("verified_purchase", pBool false), ("category", pStr (strL "Unknown"))]

/-- A full record with user_id "a", asin "b_c", timestamp 0: a distinct
triple whose concatenated key collides with `crec1`'s. -/
def crec2 : Dict :=
  [("rating", pFloat 5), ("title", pStr []), ("text", pStr []),
   ("images", pList []), ("asin", pStr (strL "b_c")), ("parent_asin", pStr (strL "b_c")),
   ("user_id", pStr (strL "a")), ("timestamp", pInt 0), ("helpful_vote", pInt 0),
   ("verified_purchase", pBool false), ("category", pStr (strL "Unknown"))]

/-- C9.  The dedup key is not injective on (user_id, asin, timestamp)
triples: `crec1` (user_id "a_b", asin "c") and `crec2` (user_id "a",
asin "b_c") have distinct triples but both key to "a_b_c_0", so the
Combiner keeps only the first record. -/
theorem c9_key_not_injective :
    tripleOf crec1 ≠ tripleOf crec2
    ∧ rowKey crec1 = rowKey crec2
    ∧ rowKey crec1 = .ok (strL "a_b_c_0")
    ∧ combine_review_data [[crec1, crec2]] none =
        .ok [dictSet crec1 "review_date" (pDate 0)] :=
  ⟨by decide, rfl, rfl, rfl⟩

/-- C10.  When all three parsers return empty collections, the Combiner
does not produce an empty table: `pd.DataFrame([])` has no columns, so
the `df['user_id']` access while building the dedup key raises
`KeyError`, aborting the run, for any overall cap. -/
theorem c10_empty_inputs_abort (cap : Option Int) :
    combine_review_data [[], [], []] cap = .error "KeyError: user_id" := by
  simp only [combine_review_data, List.flatten, List.nil_append, List.append_nil,
    pyCapSlice_nil]
  rfl

/-- C6.  For every format whose lowercasing is none of "csv", "json",
"excel", the Exporter raises the "Unsupported output format" error;
the `.error` result carries no `SaveAction`, so no file is created or
modified. -/
theorem c6_unsupported_format (df : List Dict) (path fmt : Str)
    (h1 : pyLower fmt ≠ strL "csv") (h2 : pyLower fmt ≠ strL "json")
    (h3 : pyLower fmt ≠ strL "excel") :
    save_combined_data df path fmt = .error (unsupportedMsg fmt) := by
  simp [save_combined_data, h1, h2, h3]

/-- C6 witness: the format "xml" (mixed case "Xml") is rejected with the
unsupported-format error. -/
theorem c6_witness :
    pyLower (strL "Xml") ≠ strL "csv" ∧ pyLower (strL "Xml") ≠ strL "json"
    ∧ pyLower (strL "Xml") ≠ strL "excel"
    ∧ save_combined_data [] [] (strL "Xml") = .error (unsupportedMsg (strL "Xml")) :=
  ⟨by decide, by decide, by decide,
    c6_unsupported_format [] [] (strL "Xml") (by decide) (by decide) (by decide)⟩

/-- Helper: a key absent from the dict makes `get` return the default. -/
theorem dictGetD_of_lookup_none {d : Dict} {k : String} (v : PyVal)
    (h : dictLookup d k = none) : dictGetD d k v = v := by
  unfold dictGetD
  unfold dictLookup at h
  cases hf : d.find? (fun kv => kv.1 = k) with
  | none => rfl
  | some kv => rw [hf] at h; simp at h

/-- Helper: a key present in the dict makes `get` return its value. -/
theorem dictGetD_of_lookup_some {d : Dict} {k : String} {w : PyVal} (v : PyVal)
    (h : dictLookup d k = some w) : dictGetD d k v = w := by
  unfold dictGetD
  unfold dictLookup at h
  cases hf : d.find? (fun kv => kv.1 = k) with
  | none => rw [hf] at h; simp at h
  | some kv => rw [hf] at h; simp at h; exact h

/-- A review JSON object with no `reviewTime` but a truthy
`unixReviewTime` of 5 seconds. -/
def jrNoReviewTime : Dict := [("unixReviewTime", pInt 5)]

/-- C1 counterexample.  The claim says an absent `reviewTime` makes the
timestamp fall back to `unixReviewTime * 1000` (here 5000).  In the
code an absent `reviewTime` is replaced by the default string
`'01 1, 1970'`, which parses successfully, so the timestamp is 0 (the
epoch of 1970-01-01) and the fallback is never consulted. -/
theorem c1_counterexample :
    dictLookup jrNoReviewTime "reviewTime" = none
    ∧ pyTruthy (dictGetD jrNoReviewTime "unixReviewTime" pNone) = true
    ∧ pyMulInt (dictGetD jrNoReviewTime "unixReviewTime" (pInt 0)) 1000 = .ok (pInt 5000)
    ∧ jsonTimestamp jrNoReviewTime = .ok (pInt 0)
    ∧ pInt 0 ≠ pInt 5000 :=
  ⟨rfl, rfl, rfl, rfl, by decide⟩

/-- C1 (amended).  For every line parsed as a JSON object: a present
string `reviewTime` that parses in "month day, year" format gives the
parsed millisecond epoch; a present string `reviewTime` that fails to
parse falls back to `unixReviewTime * 1000` (or 0 when
`unixReviewTime` is absent/falsy); an ABSENT `reviewTime` parses the
default string `'01 1, 1970'` and yields timestamp 0 regardless of
`unixReviewTime`; and the emitted record's timestamp field is exactly
this computed value. -/
theorem c1_amended_timestamp (review : Dict) :
    (dictLookup review "reviewTime" = none → jsonTimestamp review = .ok (pInt 0))
    ∧ (∀ s ymd, dictLookup review "reviewTime" = some (pStr s) →
        strptimeMDY s = some ymd → jsonTimestamp review = .ok (pInt (epochMs ymd)))
    ∧ (∀ s, dictLookup review "reviewTime" = some (pStr s) →
        strptimeMDY s = none → jsonTimestamp review = jsonTsFallback review)
    ∧ (dictLookup review "unixReviewTime" = none → jsonTsFallback review = .ok (pInt 0))
    ∧ (∀ u, dictLookup review "unixReviewTime" = some u → pyTruthy u = true →
        jsonTsFallback review = pyMulInt u 1000)
    ∧ (∀ rec, processJsonLine review = .ok rec →
        ∃ v, jsonTimestamp review = .ok v ∧ dictLookup rec "timestamp" = some v) := by
  refine ⟨?_, ?_, ?_, ?_, ?_, ?_⟩
  · intro h
    have hg := dictGetD_of_lookup_none (pStr (strL "01 1, 1970")) h
    simp only [jsonTimestamp, hg]
    rfl
  · intro s ymd h hp
    have hg := dictGetD_of_lookup_some (d := review) (pStr (strL "01 1, 1970")) h
    simp only [jsonTimestamp, hg, hp]
  · intro s h hp
    have hg := dictGetD_of_lookup_some (d := review) (pStr (strL "01 1, 1970")) h
    simp only [jsonTimestamp, hg, hp]
  · intro h
    have hg := dictGetD_of_lookup_none pNone h
    simp only [jsonTsFallback, hg]
    rfl
  · intro u h ht
    have hg1 := dictGetD_of_lookup_some (d := review) pNone h
    have hg2 := dictGetD_of_lookup_some (d := review) (pInt 0) h
    simp only [jsonTsFallback, hg1, hg2, ht]
    rfl
  · intro rec h
    unfold processJsonLine at h
    cases hts : jsonTimestamp review with
    | error e => rw [hts] at h; simp [Bind.bind, Except.bind] at h
    | ok v =>
      rw [hts] at h
      cases hhv : pyIndex0 (dictGetD review "helpful" (pList [.sInt 0, .sInt 0])) with
      | error e => rw [hhv] at h; simp [Bind.bind, Except.bind] at h
      | ok hv =>
        rw [hhv] at h
        cases hrat : pyFloat (dictGetD review "overall" (pInt 0)) with
        | error e => rw [hrat] at h; simp [Bind.bind, Except.bind] at h
        | ok rat =>
          rw [hrat] at h
          simp only [Bind.bind, Except.bind, Except.ok.injEq] at h
          subst h
          exact ⟨v, rfl, rfl⟩

/-- C1 witness: `jrNoReviewTime` has no `reviewTime`, so the amended
theorem computes timestamp 0 for it; a line whose `reviewTime` is
"03 2, 2010" gets the corresponding millisecond epoch. -/
theorem c1_amended_witness :
    jsonTimestamp jrNoReviewTime = .ok (pInt 0)
    ∧ jsonTimestamp [("reviewTime", pStr (strL "03 2, 2010"))] =
        .ok (pInt 1267488000000) :=
  ⟨(c1_amended_timestamp jrNoReviewTime).1 rfl,
   (c1_amended_timestamp [("reviewTime", pStr (strL "03 2, 2010"))]).2.1
     (strL "03 2, 2010") (2010, 3, 2) rfl rfl⟩

/-- C8.  A product block containing no `ASIN: <word>` token is skipped
entirely: removing it from the block list leaves the parse unchanged
(in particular it contributes zero records), for every cap, running
count and surrounding blocks. -/
theorem c8_no_asin_block_skipped (b : Str) (h : searchASIN b = none)
    (cap : Option Nat) (blocks1 blocks2 : List Str) (count : Nat) :
    pmtBlocks cap (blocks1 ++ b :: blocks2) count =
      pmtBlocks cap (blocks1 ++ blocks2) count := by
  induction blocks1 generalizing count with
  | nil => simp [pmtBlocks, h]
  | cons p t ih =>
    simp only [List.cons_append, pmtBlocks]
    cases hs : searchASIN p with
    | none => exact ih count
    | some asin =>
      cases hr : pmtReviews asin (mainCategoryOf p) cap (findallReviews p) count with
      | mk recs rest =>
        obtain ⟨c2, st⟩ := rest
        cases st <;> simp [ih]

/-- C8 witness: a concrete ASIN-less block between two other blocks
contributes nothing. -/
theorem c8_witness :
    searchASIN (strL "Id: 2 title: Orphan block") = none
    ∧ pmtBlocks none
        [strL "ASIN: B1 |Books[1] 2005-3-14 cutomer: A1 rating: 5 votes: 1 helpful: 0",
         strL "Id: 2 title: Orphan block"] 0 =
      pmtBlocks none
        [strL "ASIN: B1 |Books[1] 2005-3-14 cutomer: A1 rating: 5 votes: 1 helpful: 0"] 0 :=
  ⟨rfl,
   c8_no_asin_block_skipped (strL "Id: 2 title: Orphan block") rfl none
     [strL "ASIN: B1 |Books[1] 2005-3-14 cutomer: A1 rating: 5 votes: 1 helpful: 0"] [] 0⟩

/-- Helper: the text parser's record literal has exactly the eleven
field keys. -/
theorem txtRecord_keys (asin cat : Str) (t : ReviewTup) :
    (txtRecord asin cat t).map Prod.fst = fieldNames := rfl

/-- Helper: every record emitted by the inner review loop has the
eleven field keys. -/
theorem pmtReviews_keys (asin cat : Str) (cap : Option Nat) :
    ∀ revs count d, d ∈ (pmtReviews asin cat cap revs count).1 →
      d.map Prod.fst = fieldNames := by
  intro revs
  induction revs with
  | nil => intro count d hd; simp [pmtReviews] at hd
  | cons t rest ih =>
    intro count d hd
    simp only [pmtReviews] at hd
    by_cases hc : capHit cap (count + 1)
    · rw [if_pos hc] at hd
      simp at hd
      subst hd
      rfl
    · rw [if_neg hc] at hd
      cases hr : pmtReviews asin cat cap rest (count + 1) with
      | mk l r2 =>
        rw [hr] at hd
        simp at hd
        cases hd with
        | inl h => subst h; rfl
        | inr h => exact ih (count + 1) d (by rw [hr]; exact h)

/-- Helper: every record emitted by the block loop has the eleven field
keys. -/
theorem pmtBlocks_keys (cap : Option Nat) :
    ∀ blocks count d, d ∈ pmtBlocks cap blocks count →
      d.map Prod.fst = fieldNames := by
  intro blocks
  induction blocks with
  | nil => intro count d hd; simp [pmtBlocks] at hd
  | cons b rest ih =>
    intro count d hd
    simp only [pmtBlocks] at hd
    cases hs : searchASIN b with
    | none => rw [hs] at hd; exact ih count d hd
    | some asin =>
      simp only [hs] at hd
      cases hr : pmtReviews asin (mainCategoryOf b) cap (findallReviews b) count with
      | mk recs r2 =>
        obtain ⟨c2, st⟩ := r2
        rw [hr] at hd
        cases st with
        | true =>
          simp at hd
          exact pmtReviews_keys asin (mainCategoryOf b) cap (findallReviews b) count d
            (by rw [hr]; exact hd)
        | false =>
          simp at hd
          cases hd with
          | inl h =>
            exact pmtReviews_keys asin (mainCategoryOf b) cap (findallReviews b) count d
              (by rw [hr]; exact h)
          | inr h => exact ih c2 d h

/-- Helper: a successfully processed review-JSON line has the eleven
field keys. -/
theorem processJsonLine_keys (review : Dict) (d : Dict)
    (h : processJsonLine review = .ok d) : d.map Prod.fst = fieldNames := by
  unfold processJsonLine at h
  cases hts : jsonTimestamp review with
  | error e => rw [hts] at h; simp [Bind.bind, Except.bind] at h
  | ok v =>
    rw [hts] at h
    cases hhv : pyIndex0 (dictGetD review "helpful" (pList [.sInt 0, .sInt 0])) with
    | error e => rw [hhv] at h; simp [Bind.bind, Except.bind] at h
    | ok hv =>
      rw [hhv] at h
      cases hrat : pyFloat (dictGetD review "overall" (pInt 0)) with
      | error e => rw [hrat] at h; simp [Bind.bind, Except.bind] at h
      | ok rat =>
        rw [hrat] at h
        simp only [Bind.bind, Except.bind, Except.ok.injEq] at h
        subst h
        rfl

/-- Helper: every record in a successful review-JSON parse has the
eleven field keys. -/
theorem pjrGo_keys (cap : Option Nat) :
    ∀ lines count l, pjrGo cap lines count = .ok l →
      ∀ d ∈ l, d.map Prod.fst = fieldNames := by
  intro lines
  induction lines with
  | nil =>
    intro count l h d hd
    simp only [pjrGo, Except.ok.injEq] at h
    subst h
    simp at hd
  | cons line rest ih =>
    intro count l h d hd
    cases line with
    | none => exact ih count l h d hd
    | some r =>
      simp only [pjrGo] at h
      cases hp : processJsonLine r with
      | error e => rw [hp] at h; simp [Bind.bind, Except.bind] at h
      | ok d0 =>
        rw [hp] at h
        simp only [Bind.bind, Except.bind] at h
        by_cases hc : capHit cap (count + 1)
        · rw [if_pos hc] at h
          simp only [Except.ok.injEq] at h
          subst h
          simp at hd
          subst hd
          exact processJsonLine_keys r d hp
        · rw [if_neg hc] at h
          cases hrec : pjrGo cap rest (count + 1) with
          | error e => rw [hrec] at h; simp at h
          | ok l2 =>
            rw [hrec] at h
            simp only [Except.ok.injEq] at h
            subst h
            simp at hd
            cases hd with
            | inl hh => subst hh; exact processJsonLine_keys r d hp
            | inr hh => exact ih (count + 1) l2 hrec d hh

/-- Helper: the metadata record literal has the eleven field keys. -/
theorem processMetaLine_keys (meta : Dict) :
    (processMetaLine meta).map Prod.fst = fieldNames := rfl

/-- Helper: every record emitted by the metadata loop has the eleven
field keys. -/
theorem pmvGo_keys (cap : Option Nat) :
    ∀ lines count d, d ∈ pmvGo cap lines count → d.map Prod.fst = fieldNames := by
  intro lines
  induction lines with
  | nil => intro count d hd; simp [pmvGo] at hd
  | cons line rest ih =>
    intro count d hd
    cases line with
    | none => exact ih count d hd
    | some m =>
      simp only [pmvGo] at hd
      by_cases hc : capHit cap (count + 1)
      · rw [if_pos hc] at hd
        simp at hd
        subst hd
        rfl
      · rw [if_neg hc] at hd
        simp at hd
        cases hd with
        | inl h => subst h; rfl
        | inr h => exact ih (count + 1) d h

/-- C7.  Every record emitted by any of the three parsers has exactly
the eleven fields rating, title, text, images, asin, parent_asin,
user_id, timestamp, helpful_vote, verified_purchase, category (in the
source's literal order), each bound to a value. -/
theorem c7_all_fields_present :
    (∀ content cap d, d ∈ parse_amazon_meta_txt content cap →
      d.map Prod.fst = fieldNames)
    ∧ (∀ lines cap l d, parse_json_reviews lines cap = .ok l → d ∈ l →
      d.map Prod.fst = fieldNames)
    ∧ (∀ lines cap d, d ∈ parse_meta_instant_video_json lines cap →
      d.map Prod.fst = fieldNames) :=
  ⟨fun content cap d hd => pmtBlocks_keys cap ((reSplitId content).drop 1) 0 d hd,
   fun lines cap l d h hd => pjrGo_keys cap lines 0 l h d hd,
   fun lines cap d hd => pmvGo_keys cap lines 0 d hd⟩

/-- C7 witness: concrete one-record runs of the three parsers, with the
emitted record's key list computed. -/
theorem c7_witness :
    (txtRecord (strL "B1") (strL "Books") ⟨strL "2005-3-14", strL "A1", strL "5", strL "1", strL "0"⟩
        ∈ parse_amazon_meta_txt
          (strL "Id: 1 ASIN: B1 |Books[1] 2005-3-14 cutomer: A1 rating: 5 votes: 1 helpful: 0") none)
    ∧ (txtRecord (strL "B1") (strL "Books")
        ⟨strL "2005-3-14", strL "A1", strL "5", strL "1", strL "0"⟩).map Prod.fst = fieldNames
    ∧ processMetaLine [] ∈ parse_meta_instant_video_json [some []] none
    ∧ (processMetaLine []).map Prod.fst = fieldNames :=
  ⟨by decide,
   c7_all_fields_present.1
     (strL "Id: 1 ASIN: B1 |Books[1] 2005-3-14 cutomer: A1 rating: 5 votes: 1 helpful: 0") none
     (txtRecord (strL "B1") (strL "Books") ⟨strL "2005-3-14", strL "A1", strL "5", strL "1", strL "0"⟩)
     (by decide),
   by decide,
   c7_all_fields_present.2.2 [some []] none (processMetaLine []) (by decide)⟩

/-- Helper: dedup output is a sublist of its input (stable, first-seen
order). -/
theorem ddGo_sublist : ∀ (l : List (Str × Dict)) (seen : List Str),
    List.Sublist (ddGo seen l) l := by
  intro l
  induction l with
  | nil => intro seen; simp [ddGo]
  | cons p rest ih =>
    intro seen
    obtain ⟨k, r⟩ := p
    simp only [ddGo]
    by_cases hk : k ∈ seen
    · rw [if_pos hk]
      exact List.Sublist.cons _ (ih seen)
    · rw [if_neg hk]
      exact List.Sublist.cons₂ _ (ih (k :: seen))

/-- Helper: a pair whose key was already seen, or occurs earlier in the
list, is dropped by the dedup scan. -/
theorem ddGo_skip (r2 : Str × Dict) :
    ∀ (xs : List (Str × Dict)) (seen : List Str) (ys : List (Str × Dict)),
      (r2.1 ∈ seen ∨ r2.1 ∈ xs.map Prod.fst) →
      ddGo seen (xs ++ r2 :: ys) = ddGo seen (xs ++ ys) := by
  intro xs
  induction xs with
  | nil =>
    intro seen ys h
    simp only [List.map_nil, List.not_mem_nil, or_false] at h
    obtain ⟨k, r⟩ := r2
    simp only [List.nil_append, ddGo]
    rw [if_pos h]
  | cons p t ih =>
    intro seen ys h
    obtain ⟨k, r⟩ := p
    simp only [List.cons_append, ddGo]
    by_cases hk : k ∈ seen
    · rw [if_pos hk, if_pos hk]
      apply ih
      cases h with
      | inl hh => exact Or.inl hh
      | inr hh =>
        rw [List.map_cons, List.mem_cons] at hh
        cases hh with
        | inl he => exact Or.inl (he ▸ hk)
        | inr ht => exact Or.inr ht
    · rw [if_neg hk, if_neg hk]
      congr 1
      apply ih
      cases h with
      | inl hh => exact Or.inl (List.mem_cons_of_mem _ hh)
      | inr hh =>
        rw [List.map_cons, List.mem_cons] at hh
        cases hh with
        | inl he => exact Or.inl (by rw [he]; exact List.mem_cons_self _ _)
        | inr ht => exact Or.inr ht

/-- Helper: the dedup key depends only on the (user_id, asin,
timestamp) triple. -/
theorem rowKey_congr (r1 r2 : Dict) (h : tripleOf r1 = tripleOf r2) :
    rowKey r1 = rowKey r2 := by
  unfold rowKey
  rw [h]

/-- C5.  Records with identical (user_id, asin, timestamp) triples get
identical dedup keys; of two such records the later one is removed
(deduplicating the list with the duplicate present equals
deduplicating the list with it deleted), and the dedup pass always
returns a sublist of its input, so removal is stable and keeps
first-seen order. -/
theorem c5_dedup_first_stable (r1 r2 : Dict) (h : tripleOf r1 = tripleOf r2) :
    rowKey r1 = rowKey r2
    ∧ (∀ (k : Str) (pre mid post : List (Str × Dict)),
        pdDropDuplicatesFirst (pre ++ (k, r1) :: mid ++ (k, r2) :: post) =
          pdDropDuplicatesFirst (pre ++ (k, r1) :: mid ++ post))
    ∧ (∀ pairs, List.Sublist (pdDropDuplicatesFirst pairs) pairs) := by
  refine ⟨rowKey_congr r1 r2 h, ?_, ?_⟩
  · intro k pre mid post
    unfold pdDropDuplicatesFirst
    have e1 : pre ++ (k, r1) :: mid ++ (k, r2) :: post =
        (pre ++ (k, r1) :: mid) ++ (k, r2) :: post := by simp
    have e2 : pre ++ (k, r1) :: mid ++ post = (pre ++ (k, r1) :: mid) ++ post := by simp
    rw [e1, e2]
    apply ddGo_skip
    right
    simp
  · intro pairs
    exact ddGo_sublist pairs []

/-- A minimal record with triple (u, a, 3) and a tag field. -/
def c5recA : Dict :=
  [("user_id", pStr (strL "u")), ("asin", pStr (strL "a")), ("timestamp", pInt 3),
   ("text", pStr (strL "first"))]

/-- A distinct record with the same (u, a, 3) triple. -/
def c5recB : Dict :=
  [("user_id", pStr (strL "u")), ("asin", pStr (strL "a")), ("timestamp", pInt 3),
   ("text", pStr (strL "second"))]

/-- C5 witness: the concrete duplicate pair collapses to the first
record. -/
theorem c5_witness :
    tripleOf c5recA = tripleOf c5recB
    ∧ pdDropDuplicatesFirst [(strL "u_a_3", c5recA), (strL "u_a_3", c5recB)] =
        pdDropDuplicatesFirst [(strL "u_a_3", c5recA)]
    ∧ pdDropDuplicatesFirst [(strL "u_a_3", c5recA), (strL "u_a_3", c5recB)] =
        [(strL "u_a_3", c5recA)] :=
  ⟨by decide,
   (c5_dedup_first_stable c5recA c5recB (by decide)).2.1 (strL "u_a_3") [] [] [],
   by decide⟩

/-- Helper: cap length bound for the inner review loop. -/
theorem pmtReviews_cap (asin cat : Str) (c : Nat) (hc : 1 ≤ c) :
    ∀ revs count recs c2 st, count < c →
      pmtReviews asin cat (some c) revs count = (recs, c2, st) →
      recs.length ≤ c - count ∧ (st = false → c2 = count + recs.length ∧ c2 < c) := by
  intro revs
  induction revs with
  | nil =>
    intro count recs c2 st h he
    simp only [pmtReviews, Prod.mk.injEq] at he
    obtain ⟨h1, h2, h3⟩ := he
    subst h1; subst h2; subst h3
    exact ⟨by simp, fun _ => ⟨by simp, h⟩⟩
  | cons t rest ih =>
    intro count recs c2 st h he
    simp only [pmtReviews] at he
    by_cases hcap : capHit (some c) (count + 1)
    · rw [if_pos hcap] at he
      simp only [Prod.mk.injEq] at he
      obtain ⟨h1, h2, h3⟩ := he
      subst h1; subst h2
      refine ⟨by simp; omega, fun hst => ?_⟩
      rw [← h3] at hst
      simp at hst
    · rw [if_neg hcap] at he
      have hlt : count + 1 < c := by simp [capHit] at hcap; omega
      cases hr : pmtReviews asin cat (some c) rest (count + 1) with
      | mk l r2 =>
        obtain ⟨cc, ss⟩ := r2
        rw [hr] at he
        simp only [Prod.mk.injEq] at he
        obtain ⟨h1, h2, h3⟩ := he
        subst h1; subst h2; subst h3
        obtain ⟨ha, hb⟩ := ih (count + 1) l cc ss hlt hr
        constructor
        · simp only [List.length_cons]
          omega
        · intro hst
          obtain ⟨hb1, hb2⟩ := hb hst
          constructor
          · simp only [List.length_cons]
            omega
          · exact hb2

/-- Helper: cap length bound for the block loop. -/
theorem pmtBlocks_cap (c : Nat) (hc : 1 ≤ c) :
    ∀ blocks count, count < c → (pmtBlocks (some c) blocks count).length ≤ c - count := by
  intro blocks
  induction blocks with
  | nil => intro count h; simp [pmtBlocks]
  | cons b rest ih =>
    intro count h
    simp only [pmtBlocks]
    cases hs : searchASIN b with
    | none =>
      simp only [hs]
      exact ih count h
    | some asin =>
      simp only [hs]
      cases hr : pmtReviews asin (mainCategoryOf b) (some c) (findallReviews b) count with
      | mk recs r2 =>
        obtain ⟨c2, st⟩ := r2
        obtain ⟨ha, hb⟩ :=
          pmtReviews_cap asin (mainCategoryOf b) c hc (findallReviews b) count recs c2 st h hr
        cases st with
        | true => simpa using ha
        | false =>
          obtain ⟨hb1, hb2⟩ := hb rfl
          have hih := ih c2 hb2
          simp only [List.length_append]
          simp
          omega

/-- Helper: cap length bound for the review-JSON loop. -/
theorem pjrGo_cap (c : Nat) (hc : 1 ≤ c) :
    ∀ lines count l, count < c → pjrGo (some c) lines count = .ok l →
      l.length ≤ c - count := by
  intro lines
  induction lines with
  | nil =>
    intro count l h he
    simp only [pjrGo, Except.ok.injEq] at he
    subst he
    simp
  | cons line rest ih =>
    intro count l h he
    cases line with
    | none => exact ih count l h he
    | some r =>
      simp only [pjrGo] at he
      cases hp : processJsonLine r with
      | error e => rw [hp] at he; simp [Bind.bind, Except.bind] at he
      | ok d0 =>
        rw [hp] at he
        simp only [Bind.bind, Except.bind] at he
        by_cases hcap : capHit (some c) (count + 1)
        · rw [if_pos hcap] at he
          simp only [Except.ok.injEq] at he
          subst he
          simp
          omega
        · rw [if_neg hcap] at he
          have hlt : count + 1 < c := by simp [capHit] at hcap; omega
          cases hrec : pjrGo (some c) rest (count + 1) with
          | error e => rw [hrec] at he; simp at he
          | ok l2 =>
            rw [hrec] at he
            simp only [Except.ok.injEq] at he
            subst he
            have := ih (count + 1) l2 hlt hrec
            simp only [List.length_cons]
            omega

/-- Helper: cap length bound for the metadata loop. -/
theorem pmvGo_cap (c : Nat) (hc : 1 ≤ c) :
    ∀ lines count, count < c → (pmvGo (some c) lines count).length ≤ c - count := by
  intro lines
  induction lines with
  | nil => intro count h; simp [pmvGo]
  | cons line rest ih =>
    intro count h
    cases line with
    | none => exact ih count h
    | some m =>
      simp only [pmvGo]
      by_cases hcap : capHit (some c) (count + 1)
      · rw [if_pos hcap]
        simp
        omega
      · rw [if_neg hcap]
        have hlt : count + 1 < c := by simp [capHit] at hcap; omega
        have := ih (count + 1) hlt
        simp only [List.length_cons]
        omega

/-- Helper: a successful `eMapM` preserves length. -/
theorem eMapM_ok_length (f : α → Except String β) :
    ∀ l l', eMapM f l = .ok l' → l'.length = l.length := by
  intro l
  induction l with
  | nil =>
    intro l' h
    simp only [eMapM, Except.ok.injEq] at h
    subst h
    rfl
  | cons a t ih =>
    intro l' h
    simp only [eMapM] at h
    cases hf : f a with
    | error e => rw [hf] at h; simp [Bind.bind, Except.bind] at h
    | ok b =>
      rw [hf] at h
      simp only [Bind.bind, Except.bind] at h
      cases ht : eMapM f t with
      | error e => rw [ht] at h; simp at h
      | ok r =>
        rw [ht] at h
        simp only [Except.ok.injEq] at h
        subst h
        simp [ih r ht]

/-- Helper: a positive overall cap bounds the sliced list's length. -/
theorem pyCapSlice_le (l : List Dict) (s : Int) (hs : 0 < s) :
    (pyCapSlice l (some s)).length ≤ s.toNat := by
  simp only [pyCapSlice]
  split
  · simp only [pySliceTo]
    rw [if_pos (le_of_lt hs)]
    simp [List.length_take]
  · rename_i hcond
    omega

/-- Helper: a successful combine with a positive overall cap returns at
most that many rows. -/
theorem combine_review_data_length (datasets : List (List Dict)) (s : Int) (hs : 0 < s)
    (rows : List Dict) (h : combine_review_data datasets (some s) = .ok rows) :
    rows.length ≤ s.toNat := by
  have hle : (pyCapSlice datasets.flatten (some s)).length ≤ s.toNat :=
    pyCapSlice_le datasets.flatten s hs
  unfold combine_review_data at h
  simp only [Bind.bind, Except.bind] at h
  split at h
  · split at h
    · split at h
      · split at h
        · simp at h
        · rename_i keys hk
          split at h
          · split at h
            · simp at h
            · rename_i rows2 hm
              simp only [Except.ok.injEq] at h
              subst h
              have hlen2 := eMapM_ok_length _ _ _ hm
              have hdd : (pdDropDuplicatesFirst
                  (keys.zip (pyCapSlice datasets.flatten (some s)))).length ≤
                  (keys.zip (pyCapSlice datasets.flatten (some s))).length :=
                (ddGo_sublist (keys.zip (pyCapSlice datasets.flatten (some s))) []).length_le
              have hzip : (keys.zip (pyCapSlice datasets.flatten (some s))).length ≤
                  (pyCapSlice datasets.flatten (some s)).length := by
                simp [List.length_zip]
              simp only [List.length_map] at hlen2 ⊢
              omega
          · simp at h
      · simp at h
    · simp at h
  · simp at h

/-- C2 counterexample.  With `--samples 1` the per-parser cap computes
to `1 // 3 = 0`, and `0` is falsy in Python, so the parser is NOT
capped at 0 records: a one-line metadata file still yields one record,
violating "each parser is individually capped at s // 3 records". -/
theorem c2_counterexample :
    mainPerParserCap 1 = some 0
    ∧ (parse_meta_instant_video_json [some []] (mainPerParserCap 1)).length = 1
    ∧ ¬ (parse_meta_instant_video_json [some []] (mainPerParserCap 1)).length ≤
        ((1 : Int) / 3).toNat := by
  refine ⟨rfl, rfl, by decide⟩

/-- C2 (amended).  For every sample count s ≥ 3 (so that s // 3 ≥ 1 is
truthy) each of the three parsers emits at most s // 3 records; for
every s > 0 a successful combine with overall cap s returns at most s
rows; and --samples 9 caps each parser at 3 records.  (For s ∈ {1, 2}
the per-parser cap s // 3 = 0 is falsy and disables per-parser capping,
while the overall cap still bounds the combined output.) -/
theorem c2_amended_caps :
    (∀ s : Int, 3 ≤ s →
      (∀ content, (parse_amazon_meta_txt content (mainPerParserCap s)).length ≤
          (s / 3).toNat)
      ∧ (∀ lines l, parse_json_reviews lines (mainPerParserCap s) = .ok l →
          l.length ≤ (s / 3).toNat)
      ∧ (∀ lines, (parse_meta_instant_video_json lines (mainPerParserCap s)).length ≤
          (s / 3).toNat))
    ∧ (∀ s : Int, 0 < s → ∀ datasets rows,
        combine_review_data datasets (some s) = .ok rows → rows.length ≤ s.toNat)
    ∧ mainPerParserCap 9 = some 3 := by
  refine ⟨?_, ?_, by decide⟩
  · intro s hs
    have hcap : mainPerParserCap s = some ((s / 3).toNat) := by
      unfold mainPerParserCap
      rw [if_pos (by omega)]
    have hone : 1 ≤ (s / 3).toNat := by omega
    refine ⟨?_, ?_, ?_⟩
    · intro content
      rw [hcap]
      unfold parse_amazon_meta_txt
      have := pmtBlocks_cap _ hone ((reSplitId content).drop 1) 0 (by omega)
      simpa using this
    · intro lines l h
      rw [hcap] at h
      unfold parse_json_reviews at h
      have := pjrGo_cap _ hone lines 0 l (by omega) h
      simpa using this
    · intro lines
      rw [hcap]
      unfold parse_meta_instant_video_json
      have := pmvGo_cap _ hone lines 0 (by omega)
      simpa using this
  · intro s hs datasets rows h
    exact combine_review_data_length datasets s hs rows h

/-- C2 witness: with --samples 9, four metadata lines yield 3 = 9 // 3
records, and a concrete combine under cap 9 returns at most 9 rows. -/
theorem c2_amended_witness :
    (3 : Int) ≤ 9
    ∧ (parse_meta_instant_video_json [some [], some [], some [], some []]
        (mainPerParserCap 9)).length ≤ ((9 : Int) / 3).toNat
    ∧ (0 : Int) < 9
    ∧ ∃ rows, combine_review_data [[processMetaLine []], [processMetaLine []]] (some 9) =
        .ok rows ∧ rows.length ≤ (9 : Int).toNat :=
  ⟨by norm_num,
   (c2_amended_caps.1 9 (by norm_num)).2.2 [some [], some [], some [], some []],
   by norm_num,
   ⟨_, rfl, c2_amended_caps.2.1 9 (by norm_num) [[processMetaLine []], [processMetaLine []]]
      _ rfl⟩⟩

/-- Helper: a prefix occurrence is a substring occurrence. -/
theorem containsSub_of_isPrefixOf (p s : Str) (h : p.isPrefixOf s = true) :
    containsSub s p = true := by
  unfold containsSub
  rw [if_pos h]

/-- Helper: a substring of the tail is a substring. -/
theorem containsSub_cons (c : Char) (t p : Str) (h : containsSub t p = true) :
    containsSub (c :: t) p = true := by
  unfold containsSub
  by_cases hp : p.isPrefixOf (c :: t)
  · rw [if_pos hp]
  · rw [if_neg hp]
    exact h

/-- Helper: a substring occurrence starts at the head or lies in the
tail. -/
theorem containsSub_elim (c : Char) (t p : Str) (h : containsSub (c :: t) p = true) :
    p.isPrefixOf (c :: t) = true ∨ containsSub t p = true := by
  unfold containsSub at h
  by_cases hp : p.isPrefixOf (c :: t)
  · exact Or.inl hp
  · rw [if_neg hp] at h
    exact Or.inr h

/-- Helper: prefixes persist under appending on the right. -/
theorem isPrefixOf_append_right (p x y : Str) (h : p.isPrefixOf x = true) :
    p.isPrefixOf (x ++ y) = true := by
  rw [List.isPrefixOf_iff_prefix] at h ⊢
  exact h.trans (List.prefix_append x y)

/-- Helper: replacing "Books" by "Books & Literature" preserves the
presence of the substring "Book" (both the replacement and the
untouched text still contain it). -/
theorem pyReplaceF_books_keeps_book :
    ∀ fuel s, s.length ≤ fuel → containsSub s (strL "Book") = true →
      containsSub (pyReplaceF fuel s (strL "Books") (strL "Books & Literature"))
        (strL "Book") = true := by
  intro fuel
  induction fuel with
  | zero =>
    intro s hl hc
    have hnil : s = [] := List.eq_nil_of_length_eq_zero (Nat.le_zero.mp hl)
    subst hnil
    exact absurd hc (by decide)
  | succ f ih =>
    intro s hl hc
    cases s with
    | nil => exact absurd hc (by decide)
    | cons c rest =>
      have hpat : strL "Books" = 'B' :: 'o' :: 'o' :: 'k' :: 's' :: [] := rfl
      rw [hpat]
      simp only [pyReplaceF]
      by_cases hp : ('B' :: 'o' :: 'o' :: 'k' :: 's' :: []).isPrefixOf (c :: rest) = true
      · rw [if_pos hp]
        apply containsSub_of_isPrefixOf
        apply isPrefixOf_append_right
        decide
      · rw [if_neg hp]
        cases containsSub_elim c rest (strL "Book") hc with
        | inr ht =>
          apply containsSub_cons
          have hl' : rest.length ≤ f := by
            simp only [List.length_cons] at hl
            omega
          have := ih rest hl' ht
          rw [hpat] at this
          exact this
        | inl hpre =>
          rw [List.isPrefixOf_iff_prefix] at hpre
          obtain ⟨u, hu⟩ := hpre
          have hbk : strL "Book" = 'B' :: 'o' :: 'o' :: 'k' :: [] := rfl
          rw [hbk] at hu
          simp only [List.cons_append, List.nil_append] at hu
          obtain ⟨hc1, hc2⟩ := List.cons.inj hu
          subst hc1
          subst hc2
          have hfuel : ∃ f3, f = f3 + 3 := by
            refine ⟨f - 3, ?_⟩
            simp only [List.length_cons] at hl
            omega
          obtain ⟨f3, rfl⟩ := hfuel
          have hstep :
              pyReplaceF (f3 + 3) ('o' :: 'o' :: 'k' :: u)
                ('B' :: 'o' :: 'o' :: 'k' :: 's' :: [])
                (strL "Books & Literature") =
              'o' :: 'o' :: 'k' ::
                pyReplaceF f3 u ('B' :: 'o' :: 'o' :: 'k' :: 's' :: [])
                  (strL "Books & Literature") := rfl
          rw [hstep]
          apply containsSub_of_isPrefixOf
          rw [hbk, List.isPrefixOf_iff_prefix]
          exact ⟨_, rfl⟩

/-- C4.  The Combiner applies the substring rule of line 143 first and
the exact-match rule of line 144 second; the substring rule replaces
every occurrence of "Books"; and no single record can match both rules:
a category containing "Book" is never the string "Amazon Instant
Video", and its rewrite still contains "Book", hence still differs from
"Amazon Instant Video", so the exact-match rule never fires on a record
the substring rule touched. -/
theorem c4_rules_order_disjoint :
    (∀ v : PyVal, applyCategoryRules v =
      (catLambda1 v).bind (fun v1 => .ok (catLambda2 v1)))
    ∧ (∀ s : Str, containsSub s (strL "Book") = false →
        catLambda1 (pStr s) = .ok (pStr s))
    ∧ (∀ s : Str, containsSub s (strL "Book") = true →
        catLambda1 (pStr s) =
          .ok (pStr (pyReplace s (strL "Books") (strL "Books & Literature")))
        ∧ pyReplace s (strL "Books") (strL "Books & Literature") ≠
            strL "Amazon Instant Video"
        ∧ s ≠ strL "Amazon Instant Video") := by
  refine ⟨fun v => rfl, ?_, ?_⟩
  · intro s h
    unfold catLambda1
    rw [if_neg (by rw [show pyStrOf (pStr s) = s from rfl, h]; simp)]
  · intro s h
    have hrep : containsSub (pyReplace s (strL "Books") (strL "Books & Literature"))
        (strL "Book") = true :=
      pyReplaceF_books_keeps_book s.length s (Nat.le_refl _) h
    refine ⟨?_, ?_, ?_⟩
    · unfold catLambda1
      rw [if_pos (by rw [show pyStrOf (pStr s) = s from rfl, h])]
    · intro heq
      rw [heq] at hrep
      exact absurd hrep (by decide)
    · intro heq
      rw [heq] at h
      exact absurd h (by decide)

/-- C4 witness: for the concrete category "Books", the substring rule
fires, the rewrite "Books & Literature" is not "Amazon Instant Video",
and "Books" itself is not "Amazon Instant Video". -/
theorem c4_witness :
    containsSub (strL "Books") (strL "Book") = true
    ∧ catLambda1 (pStr (strL "Books")) =
        .ok (pStr (pyReplace (strL "Books") (strL "Books") (strL "Books & Literature")))
    ∧ pyReplace (strL "Books") (strL "Books") (strL "Books & Literature") ≠
        strL "Amazon Instant Video"
    ∧ strL "Books" ≠ strL "Amazon Instant Video" :=
  ⟨by decide,
   (c4_rules_order_disjoint.2.2 (strL "Books") (by decide)).1,
   (c4_rules_order_disjoint.2.2 (strL "Books") (by decide)).2.1,
   (c4_rules_order_disjoint.2.2 (strL "Books") (by decide)).2.2⟩
